import Mathlib

/-!
# sigmadt::optional

A shallow embedding of `cpp-std-structures/constexpr-optional-impl/optional.hpp`.

The header defines one class template with two specialisations, selected by
`is_literal_type_v<S>` (which is `std::is_trivially_destructible_v<S>`):

* `NonLiteral.optional`: `optional<S, enable_if_t<!is_literal_type_v<S>>>`, whose
  `content` is raw `std::aligned_storage_t` managed by placement new and explicit
  destructor calls;
* `Literal.optional`: `optional<S, enable_if_t<is_literal_type_v<S>>>`, whose
  `content` is a member of an anonymous union.

Containers are objects with identity (the assignment operators compare addresses), so
the operators that take a second container are embedded over a store that maps
addresses to container states.
-/

set_option autoImplicit false

namespace sigmadt

/-! ## Shared infrastructure -/

/-- Address of a container object. The source compares `this == &other` and
`&content == &other.content`; `content` lies at a fixed offset inside its container, so
both tests decide equality of the two container addresses. -/
abbrev Addr := Nat

/-- Memory as a map from container addresses to container states. -/
abbrev Store (α : Type) := Addr → α

/-- Overwrite the container at address `a`. -/
def Store.set {α : Type} (h : Store α) (a : Addr) (x : α) : Store α :=
  fun b => if b = a then x else h b

/-- Lifetime errors of the raw storage of the non-literal specialisation. -/
inductive Fault where
  /-- An lvalue obtained by `reinterpret_cast<S*>(&content)` was read while the storage
  held no live `S`. -/
  | dead_read
  /-- Placement new was run on storage that already held a live `S`. -/
  | construct_over_live
  /-- The destructor `~S()` was run on storage that held no live `S`. -/
  | destroy_dead
  deriving DecidableEq, Repr

/-! ## Non-literal specialisation (lines 23-151) -/

namespace NonLiteral

/-- State of `std::aligned_storage_t<sizeof(S), alignof(S)> content`: the bytes either
hold one live object of type `S` or none. -/
abbrev Storage (S : Type) := Option S

/-- Placement new, `new(&content) S(v)`. -/
def placement_new {S : Type} (slot : Storage S) (v : S) : Except Fault (Storage S) :=
  match slot with
  | none => .ok (some v)
  | some _ => .error .construct_over_live

/-- Explicit destructor call, `reinterpret_cast<S*>(&content)->~S()`. -/
def destroy_at {S : Type} (slot : Storage S) : Except Fault (Storage S) :=
  match slot with
  | some _ => .ok none
  | none => .error .destroy_dead

/-- Read of the lvalue `*reinterpret_cast<const S*>(&content)`. -/
def load {S : Type} (slot : Storage S) : Except Fault S :=
  match slot with
  | some v => .ok v
  | none => .error .dead_read

/-- Data members of the non-literal specialisation (lines 146-148). -/
structure optional (S : Type) where
  is_inside : Bool
  content : Storage S

namespace optional

variable {S : Type}

/-- Line 26, `optional() : is_inside(false) {}`: the storage is left as raw bytes. -/
def ctor_default : optional S :=
  ⟨false, none⟩

/-- Lines 28-30, `optional(const S& el) : is_inside(true), content()`, then
`new(&content) S(el)`. -/
def ctor_value (el : S) : Except Fault (optional S) := do
  let c ← placement_new (none : Storage S) el
  pure ⟨true, c⟩

/-- Lines 32-34, `optional(S&& el)`: as `ctor_value`, through the move constructor of
`S`. The second component is the state in which the argument is left, given by
`moved_from`. -/
def ctor_value_move (moved_from : S → S) (el : S) : Except Fault (optional S × S) := do
  let c ← placement_new (none : Storage S) el
  pure (⟨true, c⟩, moved_from el)

/-- Lines 36-40, `optional(const optional& other)`. -/
def ctor_copy (other : optional S) : Except Fault (optional S) :=
  if other.is_inside then do
    let v ← load other.content
    let c ← placement_new (none : Storage S) v
    pure ⟨other.is_inside, c⟩
  else
    pure ⟨other.is_inside, none⟩

/-- Lines 42-46, `optional(optional&& other)`. Returns the new container and the state
in which `other` is left. -/
def ctor_move (moved_from : S → S) (other : optional S) :
    Except Fault (optional S × optional S) :=
  if other.is_inside then do
    let v ← load other.content
    let c ← placement_new (none : Storage S) v
    pure (⟨other.is_inside, c⟩, ⟨other.is_inside, some (moved_from v)⟩)
  else
    pure (⟨other.is_inside, none⟩, other)

/-- Lines 48-52, `~optional()`. -/
def dtor (x : optional S) : Except Fault (optional S) :=
  if x.is_inside then do
    let c ← destroy_at x.content
    pure ⟨x.is_inside, c⟩
  else
    pure x

/-- Lines 54-59, `reset()`. -/
def reset (x : optional S) : Except Fault (optional S) :=
  if x.is_inside then do
    let c ← destroy_at x.content
    pure ⟨false, c⟩
  else
    pure x

/-- Lines 91-93, `explicit operator bool() const`. -/
def operator_bool (x : optional S) : Bool :=
  x.is_inside

/-- Lines 95-101, `operator*()` (const and non-const), read as an rvalue. -/
def operator_star (x : optional S) : Except Fault S :=
  load x.content

/-- Lines 103-109, `operator->()` (const and non-const): the pointee of the returned
pointer. -/
def operator_arrow (x : optional S) : Except Fault S :=
  load x.content

/-- Lines 111-117, `value()` (const and non-const): `return operator*();`. -/
def value (x : optional S) : Except Fault S :=
  operator_star x

/-- Assignment through the reference returned by the non-const `operator*()`,
`*x = v`. -/
def store_through_star (x : optional S) (v : S) : Except Fault (optional S) := do
  let _ ← load x.content
  pure ⟨x.is_inside, some v⟩

/-- Lines 119-121, `value_or(const S& el) const`. -/
def value_or (x : optional S) (el : S) : Except Fault S :=
  if x.is_inside then value x else pure el

/-- Lines 123-132, `operator==(const optional& x, const optional& y)`. -/
def operator_eq [BEq S] (x y : optional S) : Except Fault Bool :=
  if !x.is_inside && !y.is_inside then
    pure true
  else if !x.is_inside || !y.is_inside then
    pure false
  else do
    let a ← load x.content
    let b ← load y.content
    pure (a == b)

/-- Lines 134-140, `operator==(const optional& x, const S& el)`. -/
def operator_eq_value [BEq S] (x : optional S) (el : S) : Except Fault Bool :=
  if !x.is_inside then
    pure false
  else do
    let a ← load x.content
    pure (a == el)

/-- Lines 142-144, `operator==(const S& el, const optional& x)`: `return x == el;`. -/
def operator_eq_value_rev [BEq S] (el : S) (x : optional S) : Except Fault Bool :=
  operator_eq_value x el

/-- Presence invariant: `is_inside` is true exactly when the storage holds a live
object. -/
def WF (x : optional S) : Prop :=
  x.is_inside = x.content.isSome

instance (x : optional S) : Decidable (WF x) :=
  inferInstanceAs (Decidable (x.is_inside = x.content.isSome))

end optional

/-- Member call `reset()` on the container at address `this`. -/
def reset_at {S : Type} (h : Store (optional S)) (this : Addr) :
    Except Fault (Store (optional S)) := do
  let x ← (h this).reset
  pure (h.set this x)

/-- Member call `~optional()` on the container at address `this`. -/
def dtor_at {S : Type} (h : Store (optional S)) (this : Addr) :
    Except Fault (Store (optional S)) := do
  let x ← (h this).dtor
  pure (h.set this x)

/-- Statement `*x = v` on the container at address `this`. -/
def store_through_star_at {S : Type} (h : Store (optional S)) (this : Addr) (v : S) :
    Except Fault (Store (optional S)) := do
  let x ← (h this).store_through_star v
  pure (h.set this x)

/-- Lines 61-74, `operator=(const optional& other)`, with `this` and `other` given by
address. -/
def operator_assign_copy {S : Type} (h : Store (optional S)) (this other : Addr) :
    Except Fault (Store (optional S)) :=
  if this = other then
    pure h
  else do
    let h1 ← reset_at h this
    if (h1 other).is_inside then do
      let v ← load (h1 other).content
      let c ← placement_new (h1 this).content v
      let h2 := h1.set this ⟨(h1 this).is_inside, c⟩
      pure (h2.set this ⟨true, (h2 this).content⟩)
    else
      pure h1

/-- Lines 76-89, `operator=(optional&& other)`. The move constructor of `S` leaves the
source object in the state `moved_from v`. -/
def operator_assign_move {S : Type} (moved_from : S → S) (h : Store (optional S))
    (this other : Addr) : Except Fault (Store (optional S)) :=
  if this = other then
    pure h
  else do
    let h1 ← reset_at h this
    if (h1 other).is_inside then do
      let v ← load (h1 other).content
      let c ← placement_new (h1 this).content v
      let h2 := h1.set this ⟨(h1 this).is_inside, c⟩
      let h3 := h2.set other ⟨(h2 other).is_inside, some (moved_from v)⟩
      pure (h3.set this ⟨true, (h3 this).content⟩)
    else
      pure h1

/-- Calls that a client can make on the containers of a store. -/
inductive Op (S : Type) where
  /-- The call `x.reset()`. -/
  | reset (this : Addr)
  /-- The destructor call that ends the life of `x`. -/
  | dtor (this : Addr)
  /-- The statement `*x = v`. -/
  | store_through_star (this : Addr) (v : S)
  /-- The statement `x = y`. -/
  | assign_copy (this other : Addr)
  /-- The statement `x = std::move(y)`. -/
  | assign_move (this other : Addr)

/-- Container on which the call is made. -/
def Op.this {S : Type} : Op S → Addr
  | .reset a => a
  | .dtor a => a
  | .store_through_star a _ => a
  | .assign_copy a _ => a
  | .assign_move a _ => a

/-- Container passed by non-const (rvalue) reference, if any. -/
def Op.moved_arg {S : Type} : Op S → Option Addr
  | .assign_move _ b => some b
  | _ => none

/-- Container passed as the argument, if any. -/
def Op.arg {S : Type} : Op S → Option Addr
  | .assign_copy _ b => some b
  | .assign_move _ b => some b
  | _ => none

/-- The calls named by the presence invariant: `reset` and the two assignments. -/
def Op.is_reset_or_assign {S : Type} : Op S → Bool
  | .reset _ => true
  | .assign_copy _ _ => true
  | .assign_move _ _ => true
  | _ => false

/-- Effect of one call on the store. -/
def step {S : Type} (moved_from : S → S) (h : Store (optional S)) :
    Op S → Except Fault (Store (optional S))
  | .reset a => reset_at h a
  | .dtor a => dtor_at h a
  | .store_through_star a v => store_through_star_at h a v
  | .assign_copy a b => operator_assign_copy h a b
  | .assign_move a b => operator_assign_move moved_from h a b

/-- Effect of a sequence of calls, stopping at the first fault. -/
def run {S : Type} (moved_from : S → S) (h : Store (optional S)) :
    List (Op S) → Except Fault (Store (optional S))
  | [] => pure h
  | op :: ops => do
    let h1 ← step moved_from h op
    run moved_from h1 ops

/-- Independence of the container at `b` from the one at `a`: every call made on `a`
that does not pass `b` as an rvalue completes and leaves `b` holding `v`. -/
def Independent {S : Type} (moved_from : S → S) (h : Store (optional S)) (a b : Addr)
    (v : S) : Prop :=
  ∀ op : Op S, op.this = a → op.moved_arg ≠ some b →
    ∃ h2, step moved_from h op = .ok h2 ∧
      (h2 b).operator_bool = true ∧ (h2 b).operator_star = .ok v

end NonLiteral

/-! ## Literal specialisation (lines 156-268) -/

namespace Literal

/-- Destructor of a trivially destructible `S`: `is_literal_type_v<S>` is
`std::is_trivially_destructible_v<S>`, so `~S()` executes no code and the bytes of the
object stay as they are. -/
def trivial_dtor {S : Type} (v : S) : S :=
  v

/-- Data members of the literal specialisation (lines 261-266): the flag and the
anonymous union `{ S content; char support; }`, modelled by the `S` value that the
bytes of the union denote. -/
structure optional (S : Type) where
  is_inside : Bool
  content : S

/-- Argument of `operator=(const S& el)`: a reference either to the `content` member
of the assigned container itself or to any other object, of value `v`. -/
inductive ElemRef (S : Type) where
  | own_content
  | other (v : S)

namespace optional

variable {S : Type}

/-- Line 159, `optional() : is_inside(false), support()`. Only `support` is
initialised; `raw` is the `S` value denoted by the bytes of the union. -/
def ctor_default (raw : S) : optional S :=
  ⟨false, raw⟩

/-- Line 161, `optional(const S& el) : is_inside(true), content(el)`. -/
def ctor_value (el : S) : optional S :=
  ⟨true, el⟩

/-- Line 162, `optional(S&& el) : is_inside(true), content(std::move(el))`. The second
component is the state in which the argument is left. -/
def ctor_value_move (moved_from : S → S) (el : S) : optional S × S :=
  (⟨true, el⟩, moved_from el)

/-- Line 164, `optional(const optional& other)`. -/
def ctor_copy (other : optional S) : optional S :=
  ⟨other.is_inside, other.content⟩

/-- Line 165, `optional(optional&& other)`. Returns the new container and the state in
which `other` is left. -/
def ctor_move (moved_from : S → S) (other : optional S) : optional S × optional S :=
  (⟨other.is_inside, other.content⟩, ⟨other.is_inside, moved_from other.content⟩)

/-- Lines 187-195, `operator=(const S& el)`. -/
def operator_assign_value (x : optional S) (el : ElemRef S) : optional S :=
  match el with
  | .own_content => x
  | .other v => ⟨true, v⟩

/-- Lines 197-205, `operator=(S&& el)`. The second component is the state in which an
argument other than the own `content` is left. -/
def operator_assign_value_move (moved_from : S → S) (x : optional S) (el : ElemRef S) :
    optional S × Option S :=
  match el with
  | .own_content => (x, none)
  | .other v => (⟨true, v⟩, some (moved_from v))

/-- Lines 207-209, `explicit operator bool() const`. -/
def operator_bool (x : optional S) : Bool :=
  x.is_inside

/-- Lines 211-217, `operator*()` (const and non-const), read as an rvalue. -/
def operator_star (x : optional S) : S :=
  x.content

/-- Assignment through the reference returned by the non-const `operator*()`,
`*x = v`. -/
def store_through_star (x : optional S) (v : S) : optional S :=
  ⟨x.is_inside, v⟩

/-- Lines 219-225, `reset()`. -/
def reset (x : optional S) : optional S :=
  if x.is_inside then
    ⟨false, trivial_dtor x.content⟩
  else
    x

/-- Implicit destructor of the literal specialisation: trivial. -/
def dtor (x : optional S) : optional S :=
  ⟨x.is_inside, trivial_dtor x.content⟩

/-- Lines 227-233, `operator->()` (const and non-const): the pointee of the returned
pointer. -/
def operator_arrow (x : optional S) : S :=
  x.content

/-- Lines 235-241, `value()` (const and non-const): `return operator*();`. -/
def value (x : optional S) : S :=
  operator_star x

/-- Lines 243-245, `value_or(const S& el) const`. -/
def value_or (x : optional S) (el : S) : S :=
  if x.is_inside then x.content else el

/-- Lines 247-249, `operator==(const optional& x, const optional& y)`. -/
def operator_eq [BEq S] (x y : optional S) : Bool :=
  x.content == y.content

/-- Lines 251-253, `operator==(const optional& x, const S& el)`. -/
def operator_eq_value [BEq S] (x : optional S) (el : S) : Bool :=
  x.content == el

/-- Lines 255-257, `operator==(const S& el, const optional& x)`: `return x == el;`. -/
def operator_eq_value_rev [BEq S] (el : S) (x : optional S) : Bool :=
  operator_eq_value x el

end optional

/-- Value of the object that the argument of `operator=(const S& el)` refers to, when
the assignment is made on the container `x`. -/
def ElemRef.get {S : Type} (x : optional S) : ElemRef S → S
  | .own_content => x.content
  | .other v => v

/-- Lines 167-175, `operator=(const optional& other)`, with `this` and `other` given by
address. -/
def operator_assign_copy {S : Type} (h : Store (optional S)) (this other : Addr) :
    Store (optional S) :=
  if this = other then
    h
  else
    let h1 := h.set this ⟨(h other).is_inside, (h this).content⟩
    h1.set this ⟨(h1 this).is_inside, (h1 other).content⟩

/-- Lines 177-185, `operator=(optional&& other)`. The move assignment of `S` leaves the
source object in the state `moved_from v`. -/
def operator_assign_move {S : Type} (moved_from : S → S) (h : Store (optional S))
    (this other : Addr) : Store (optional S) :=
  if this = other then
    h
  else
    let h1 := h.set this ⟨(h other).is_inside, (h this).content⟩
    let h2 := h1.set this ⟨(h1 this).is_inside, (h1 other).content⟩
    h2.set other ⟨(h2 other).is_inside, moved_from (h2 other).content⟩

/-- Calls that a client can make on the containers of a store. -/
inductive Op (S : Type) where
  /-- The call `x.reset()`. -/
  | reset (this : Addr)
  /-- The destructor call that ends the life of `x`. -/
  | dtor (this : Addr)
  /-- The statement `*x = v`. -/
  | store_through_star (this : Addr) (v : S)
  /-- The statement `x = y`. -/
  | assign_copy (this other : Addr)
  /-- The statement `x = std::move(y)`. -/
  | assign_move (this other : Addr)
  /-- The statement `x = el` for an lvalue `el` of type `S`. -/
  | assign_value (this : Addr) (el : ElemRef S)
  /-- The statement `x = std::move(el)` for an `el` of type `S`. -/
  | assign_value_move (this : Addr) (el : ElemRef S)

/-- Container on which the call is made. -/
def Op.this {S : Type} : Op S → Addr
  | .reset a => a
  | .dtor a => a
  | .store_through_star a _ => a
  | .assign_copy a _ => a
  | .assign_move a _ => a
  | .assign_value a _ => a
  | .assign_value_move a _ => a

/-- Container passed by non-const (rvalue) reference, if any. -/
def Op.moved_arg {S : Type} : Op S → Option Addr
  | .assign_move _ b => some b
  | _ => none

/-- Effect of one call on the store. -/
def step {S : Type} (moved_from : S → S) (h : Store (optional S)) :
    Op S → Store (optional S)
  | .reset a => h.set a (h a).reset
  | .dtor a => h.set a (h a).dtor
  | .store_through_star a v => h.set a ((h a).store_through_star v)
  | .assign_copy a b => operator_assign_copy h a b
  | .assign_move a b => operator_assign_move moved_from h a b
  | .assign_value a el => h.set a ((h a).operator_assign_value el)
  | .assign_value_move a el => h.set a ((h a).operator_assign_value_move moved_from el).1

/-- Independence of the container at `b` from the one at `a`: every call made on `a`
that does not pass `b` as an rvalue leaves `b` holding `v`. -/
def Independent {S : Type} (moved_from : S → S) (h : Store (optional S)) (a b : Addr)
    (v : S) : Prop :=
  ∀ op : Op S, op.this = a → op.moved_arg ≠ some b →
    (step moved_from h op b).operator_bool = true ∧
      (step moved_from h op b).operator_star = v

end Literal

/-! ## Calls offered by both specialisations -/

/-- Calls that exist in both specialisations: the default, value and copy constructors
(which create the container of the variable at address `this`), copy assignment and
`reset()`. -/
inductive SharedOp (S : Type) where
  /-- The declaration `optional<S> x;`. -/
  | default_construct (this : Addr)
  /-- The declaration `optional<S> x(el);`. -/
  | value_construct (this : Addr) (el : S)
  /-- The declaration `optional<S> x(y);`. -/
  | copy_construct (this other : Addr)
  /-- The statement `x = y`. -/
  | assign_copy (this other : Addr)
  /-- The call `x.reset()`. -/
  | reset (this : Addr)

namespace NonLiteral

/-- Effect of one shared call on a store of non-literal containers. -/
def step_shared {S : Type} (h : Store (optional S)) :
    SharedOp S → Except Fault (Store (optional S))
  | .default_construct a => pure (h.set a optional.ctor_default)
  | .value_construct a el => do
    let x ← optional.ctor_value el
    pure (h.set a x)
  | .copy_construct a b => do
    let x ← optional.ctor_copy (h b)
    pure (h.set a x)
  | .assign_copy a b => operator_assign_copy h a b
  | .reset a => reset_at h a

/-- Effect of a sequence of shared calls, stopping at the first fault. -/
def run_shared {S : Type} (h : Store (optional S)) :
    List (SharedOp S) → Except Fault (Store (optional S))
  | [] => pure h
  | op :: ops => do
    let h1 ← step_shared h op
    run_shared h1 ops

end NonLiteral

namespace Literal

/-- Effect of one shared call on a store of literal containers. The default
constructor initialises `support` only, so the `S` value denoted by the union is the one
denoted by the bytes already at that address. -/
def step_shared {S : Type} (h : Store (optional S)) : SharedOp S → Store (optional S)
  | .default_construct a => h.set a (optional.ctor_default (h a).content)
  | .value_construct a el => h.set a (optional.ctor_value el)
  | .copy_construct a b => h.set a (optional.ctor_copy (h b))
  | .assign_copy a b => operator_assign_copy h a b
  | .reset a => h.set a (h a).reset

/-- Effect of a sequence of shared calls. -/
def run_shared {S : Type} (h : Store (optional S)) : List (SharedOp S) → Store (optional S)
  | [] => h
  | op :: ops => run_shared (step_shared h op) ops

/-- The non-literal container with the same presence flag and, when a value is present,
the same value. -/
def optional.to_general {S : Type} (x : optional S) : NonLiteral.optional S :=
  ⟨x.is_inside, if x.is_inside then some x.content else none⟩

end Literal

end sigmadt

/-! ## Theorems -/

namespace sigmadt

/-! ### Store lemmas -/

theorem Store.set_same {α : Type} (h : Store α) (a : Addr) (x : α) :
    h.set a x a = x := by
  simp [Store.set]

theorem Store.set_other {α : Type} (h : Store α) (a b : Addr) (x : α) (hne : b ≠ a) :
    h.set a x b = h b := by
  simp [Store.set, hne]

theorem Store.set_set {α : Type} (h : Store α) (a : Addr) (x y : α) :
    (h.set a x).set a y = h.set a y := by
  funext b
  by_cases hb : b = a <;> simp [Store.set, hb]

theorem Store.set_self {α : Type} (h : Store α) (a : Addr) :
    h.set a (h a) = h := by
  funext b
  by_cases hb : b = a <;> simp [Store.set, hb]

namespace NonLiteral

variable {S : Type}

/-! ### The presence invariant in terms of the two states -/

theorem optional.WF_iff (x : optional S) :
    x.WF ↔ x = ⟨false, none⟩ ∨ ∃ v, x = ⟨true, some v⟩ := by
  obtain ⟨b, c⟩ := x
  cases b <;> cases c <;> simp [optional.WF]

theorem optional.WF_empty : (⟨false, none⟩ : optional S).WF := rfl

theorem optional.WF_holding (v : S) : (⟨true, some v⟩ : optional S).WF := rfl

theorem optional.reset_of_WF (x : optional S) (hx : x.WF) :
    x.reset = .ok ⟨false, none⟩ := by
  rcases (optional.WF_iff x).1 hx with rfl | ⟨v, rfl⟩ <;> rfl

theorem reset_at_of_WF (h : Store (optional S)) (a : Addr) (hx : (h a).WF) :
    reset_at h a = .ok (h.set a ⟨false, none⟩) := by
  simp [reset_at, optional.reset_of_WF _ hx, bind, Except.bind, pure, Except.pure]

/-- Copy assignment between distinct well-formed containers overwrites the target state
with the source state. -/
theorem operator_assign_copy_of_WF (h : Store (optional S)) (this other : Addr)
    (hne : this ≠ other) (ht : (h this).WF) (ho : (h other).WF) :
    operator_assign_copy h this other = .ok (h.set this (h other)) := by
  have hne2 : other ≠ this := fun e => hne e.symm
  simp only [operator_assign_copy, if_neg hne, reset_at_of_WF h this ht, bind, Except.bind,
    Store.set_same, Store.set_other _ _ _ _ hne2, Store.set_set]
  rcases (optional.WF_iff (h other)).1 ho with e | ⟨v, e⟩ <;>
    simp [e, load, placement_new, pure, Except.pure]

/-- Move assignment between distinct well-formed containers overwrites the target state
with the source state and leaves the source holding the moved-from object. -/
theorem operator_assign_move_of_WF (mv : S → S) (h : Store (optional S)) (this other : Addr)
    (hne : this ≠ other) (ht : (h this).WF) (ho : (h other).WF) :
    operator_assign_move mv h this other =
      .ok ((h.set other ⟨(h other).is_inside, (h other).content.map mv⟩).set this (h other)) := by
  have hne2 : other ≠ this := fun e => hne e.symm
  simp only [operator_assign_move, if_neg hne, reset_at_of_WF h this ht, bind, Except.bind,
    Store.set_same, Store.set_other _ _ _ _ hne2, Store.set_set]
  rcases (optional.WF_iff (h other)).1 ho with e | ⟨v, e⟩
  · simp only [e, pure, Except.pure, Bool.false_eq_true, if_false, Option.map_none']
    congr 1
    funext c
    by_cases hc : c = this <;> by_cases hc2 : c = other <;> simp [Store.set, hc, hc2, e]
  · simp only [e, load, placement_new, pure, Except.pure, if_true, Option.map_some']
    congr 1
    funext c
    by_cases hc : c = this <;> by_cases hc2 : c = other <;>
      simp [Store.set, hc, hc2, hne, hne2]

theorem WF_set (h : Store (optional S)) (a : Addr) (x : optional S)
    (hwf : ∀ c, (h c).WF) (hx : x.WF) : ∀ c, ((h.set a x) c).WF := by
  intro c
  by_cases hc : c = a
  · subst hc
    rw [Store.set_same]
    exact hx
  · rw [Store.set_other _ _ _ _ hc]
    exact hwf c

theorem optional.WF_moved (mv : S → S) (x : optional S) (hx : x.WF) :
    (⟨x.is_inside, x.content.map mv⟩ : optional S).WF := by
  rcases (optional.WF_iff x).1 hx with rfl | ⟨v, rfl⟩ <;> rfl

/-- On a well-formed store `reset` and both assignments complete and keep the store
well-formed. -/
theorem step_preserves_WF (mv : S → S) (h : Store (optional S)) (op : Op S)
    (hop : op.is_reset_or_assign = true) (hwf : ∀ c, (h c).WF) :
    ∃ h2, step mv h op = .ok h2 ∧ ∀ c, (h2 c).WF := by
  cases op with
  | reset a =>
    exact ⟨_, reset_at_of_WF h a (hwf a), WF_set h a _ hwf optional.WF_empty⟩
  | dtor a => simp [Op.is_reset_or_assign] at hop
  | store_through_star a v => simp [Op.is_reset_or_assign] at hop
  | assign_copy a b =>
    by_cases hab : a = b
    · subst hab
      exact ⟨h, by simp [step, operator_assign_copy, pure, Except.pure], hwf⟩
    · exact ⟨_, operator_assign_copy_of_WF h a b hab (hwf a) (hwf b),
        WF_set h a _ hwf (hwf b)⟩
  | assign_move a b =>
    by_cases hab : a = b
    · subst hab
      exact ⟨h, by simp [step, operator_assign_move, pure, Except.pure], hwf⟩
    · exact ⟨_, operator_assign_move_of_WF mv h a b hab (hwf a) (hwf b),
        WF_set _ a _ (WF_set h b _ hwf (optional.WF_moved mv _ (hwf b))) (hwf b)⟩

/-- On a well-formed store every sequence of `reset` and assignment calls completes and
keeps the store well-formed. -/
theorem run_preserves_WF (mv : S → S) (ops : List (Op S)) :
    ∀ h : Store (optional S), (∀ c, (h c).WF) →
      (∀ op ∈ ops, op.is_reset_or_assign = true) →
      ∃ h2, run mv h ops = .ok h2 ∧ ∀ c, (h2 c).WF := by
  induction ops with
  | nil =>
    intro h hwf _
    exact ⟨h, rfl, hwf⟩
  | cons op ops ih =>
    intro h hwf hops
    obtain ⟨h1, e1, hwf1⟩ :=
      step_preserves_WF mv h op (hops op (List.mem_cons_self _ _)) hwf
    obtain ⟨h2, e2, hwf2⟩ := ih h1 hwf1 (fun o ho => hops o (List.mem_cons_of_mem _ ho))
    refine ⟨h2, ?_, hwf2⟩
    simp only [run, e1, bind, Except.bind]
    exact e2

/-- Two distinct holding containers of a well-formed store are independent. -/
theorem independent_of_holding_pair (mv : S → S) (h : Store (optional S)) (a b : Addr)
    (w v : S) (hab : a ≠ b) (ha : h a = ⟨true, some w⟩) (hb : h b = ⟨true, some v⟩)
    (hwf : ∀ c, (h c).WF) : Independent mv h a b v := by
  have hba : b ≠ a := fun e => hab e.symm
  have key : ∀ h2 : Store (optional S), h2 b = h b →
      (h2 b).operator_bool = true ∧ (h2 b).operator_star = .ok v := by
    intro h2 e
    rw [e, hb]
    exact ⟨rfl, rfl⟩
  intro op hthis hmoved
  cases op with
  | reset c =>
    simp only [Op.this] at hthis
    subst hthis
    exact ⟨_, reset_at_of_WF h c (hwf c), key _ (Store.set_other _ _ _ _ hba)⟩
  | dtor c =>
    simp only [Op.this] at hthis
    subst hthis
    refine ⟨h.set c ⟨true, none⟩, ?_, key _ (Store.set_other _ _ _ _ hba)⟩
    simp only [step, dtor_at, ha]
    rfl
  | store_through_star c u =>
    simp only [Op.this] at hthis
    subst hthis
    refine ⟨h.set c ⟨true, some u⟩, ?_, key _ (Store.set_other _ _ _ _ hba)⟩
    simp only [step, store_through_star_at, ha]
    rfl
  | assign_copy c d =>
    simp only [Op.this] at hthis
    subst hthis
    by_cases hcd : c = d
    · subst hcd
      exact ⟨h, by simp [step, operator_assign_copy, pure, Except.pure], key h rfl⟩
    · exact ⟨_, operator_assign_copy_of_WF h c d hcd (hwf c) (hwf d),
        key _ (Store.set_other _ _ _ _ hba)⟩
  | assign_move c d =>
    simp only [Op.this] at hthis
    subst hthis
    have hbd : b ≠ d := fun e => hmoved (by simp [Op.moved_arg, e])
    by_cases hcd : c = d
    · subst hcd
      exact ⟨h, by simp [step, operator_assign_move, pure, Except.pure], key h rfl⟩
    · refine ⟨_, operator_assign_move_of_WF mv h c d hcd (hwf c) (hwf d), key _ ?_⟩
      rw [Store.set_other _ _ _ _ hba, Store.set_other _ _ _ _ hbd]

end NonLiteral

namespace Literal

variable {S : Type}

/-- Copy assignment overwrites the target state with the source state. -/
theorem operator_assign_copy_eq (h : Store (optional S)) (this other : Addr) :
    operator_assign_copy h this other = h.set this (h other) := by
  by_cases hne : this = other
  · subst hne
    simp [operator_assign_copy, Store.set_self]
  · have hne2 : other ≠ this := fun e => hne e.symm
    simp [operator_assign_copy, hne, Store.set_same, Store.set_other _ _ _ _ hne2,
      Store.set_set]

/-- Move assignment between distinct containers overwrites the target state with the
source state and leaves the moved-from object in the source. -/
theorem operator_assign_move_eq (mv : S → S) (h : Store (optional S)) (this other : Addr)
    (hne : this ≠ other) :
    operator_assign_move mv h this other =
      (h.set this (h other)).set other ⟨(h other).is_inside, mv (h other).content⟩ := by
  have hne2 : other ≠ this := fun e => hne e.symm
  simp [operator_assign_move, hne, Store.set_same, Store.set_other _ _ _ _ hne2,
    Store.set_set]

/-- A holding container is independent of every other container. -/
theorem independent_of_holding_literal (mv : S → S) (h : Store (optional S)) (a b : Addr)
    (v : S) (hab : a ≠ b) (hb : h b = ⟨true, v⟩) : Independent mv h a b v := by
  have hba : b ≠ a := fun e => hab e.symm
  have key : ∀ h2 : Store (optional S), h2 b = h b →
      (h2 b).operator_bool = true ∧ (h2 b).operator_star = v := by
    intro h2 e
    rw [e, hb]
    exact ⟨rfl, rfl⟩
  intro op hthis hmoved
  cases op with
  | reset c =>
    simp only [Op.this] at hthis
    subst hthis
    exact key _ (Store.set_other _ _ _ _ hba)
  | dtor c =>
    simp only [Op.this] at hthis
    subst hthis
    exact key _ (Store.set_other _ _ _ _ hba)
  | store_through_star c u =>
    simp only [Op.this] at hthis
    subst hthis
    exact key _ (Store.set_other _ _ _ _ hba)
  | assign_copy c d =>
    simp only [Op.this] at hthis
    subst hthis
    simp only [step, operator_assign_copy_eq]
    exact key _ (Store.set_other _ _ _ _ hba)
  | assign_move c d =>
    simp only [Op.this] at hthis
    subst hthis
    have hbd : b ≠ d := fun e => hmoved (by simp [Op.moved_arg, e])
    by_cases hcd : c = d
    · subst hcd
      simp only [step, operator_assign_move, if_true]
      exact key h rfl
    · simp only [step, operator_assign_move_eq mv h c d hcd]
      refine key _ ?_
      rw [Store.set_other _ _ _ _ hbd, Store.set_other _ _ _ _ hba]
  | assign_value c el =>
    simp only [Op.this] at hthis
    subst hthis
    exact key _ (Store.set_other _ _ _ _ hba)
  | assign_value_move c el =>
    simp only [Op.this] at hthis
    subst hthis
    exact key _ (Store.set_other _ _ _ _ hba)

end Literal

/-! ### Sequences that end with the destructor -/

namespace NonLiteral

theorem run_append {S : Type} (mv : S → S) (ops1 ops2 : List (Op S)) :
    ∀ (h h1 : Store (optional S)), run mv h ops1 = .ok h1 →
      run mv h (ops1 ++ ops2) = run mv h1 ops2 := by
  induction ops1 with
  | nil =>
    intro h h1 e
    cases e
    rfl
  | cons op ops ih =>
    intro h h1 e
    simp only [run, bind, Except.bind] at e
    simp only [List.cons_append, run, bind, Except.bind]
    cases hs : step mv h op with
    | error f =>
      rw [hs] at e
      cases e
    | ok h0 =>
      rw [hs] at e
      exact ih h0 h1 e

theorem dtor_at_of_WF {S : Type} (h : Store (optional S)) (a : Addr) (hx : (h a).WF) :
    dtor_at h a = .ok (h.set a ⟨(h a).is_inside, none⟩) := by
  rcases (optional.WF_iff (h a)).1 hx with e | ⟨v, e⟩
  · simp only [dtor_at, e, optional.dtor, bind, Except.bind, pure, Except.pure]
    simp
  · simp only [dtor_at, e, optional.dtor, bind, Except.bind, pure, Except.pure]
    rfl

end NonLiteral

/-! ### Simulation of the literal specialisation by the non-literal one -/

theorem Store.map_set {α β : Type} (f : α → β) (h : Store α) (a : Addr) (x : α) :
    (fun c => f (h.set a x c)) = Store.set (fun c => f (h c)) a (f x) := by
  funext c
  by_cases hc : c = a <;> simp [Store.set, hc]

theorem to_general_WF {S : Type} (x : Literal.optional S) : x.to_general.WF := by
  obtain ⟨b, c⟩ := x
  cases b <;> rfl

theorem to_general_reset {S : Type} (x : Literal.optional S) :
    x.reset.to_general = ⟨false, none⟩ := by
  obtain ⟨b, c⟩ := x
  cases b <;> rfl

theorem to_general_ctor_copy {S : Type} (x : Literal.optional S) :
    NonLiteral.optional.ctor_copy x.to_general
      = .ok (Literal.optional.ctor_copy x).to_general := by
  obtain ⟨b, c⟩ := x
  cases b <;> rfl

/-- One shared call on matching stores yields matching stores. -/
theorem step_shared_simulates {S : Type} (hl : Store (Literal.optional S)) (op : SharedOp S) :
    NonLiteral.step_shared (fun c => (hl c).to_general) op
      = .ok (fun c => (Literal.step_shared hl op c).to_general) := by
  cases op with
  | default_construct a =>
    simp only [NonLiteral.step_shared, Literal.step_shared, Store.map_set]
    rfl
  | value_construct a el =>
    simp only [NonLiteral.step_shared, Literal.step_shared, Store.map_set]
    rfl
  | copy_construct a b =>
    simp only [NonLiteral.step_shared, Literal.step_shared, Store.map_set,
      to_general_ctor_copy]
    rfl
  | assign_copy a b =>
    simp only [NonLiteral.step_shared, Literal.step_shared, Literal.operator_assign_copy_eq,
      Store.map_set]
    by_cases hab : a = b
    · subst hab
      simp [NonLiteral.operator_assign_copy, Store.set_self, pure, Except.pure]
    · exact NonLiteral.operator_assign_copy_of_WF _ a b hab (to_general_WF _)
        (to_general_WF _)
  | reset a =>
    simp only [NonLiteral.step_shared, Literal.step_shared, Store.map_set, to_general_reset]
    exact NonLiteral.reset_at_of_WF _ a (to_general_WF _)

/-- A sequence of shared calls on matching stores yields matching stores. -/
theorem run_shared_simulates {S : Type} (ops : List (SharedOp S)) :
    ∀ hl : Store (Literal.optional S),
      NonLiteral.run_shared (fun c => (hl c).to_general) ops
        = .ok (fun c => (Literal.run_shared hl ops c).to_general) := by
  induction ops with
  | nil =>
    intro hl
    rfl
  | cons op ops ih =>
    intro hl
    simp only [NonLiteral.run_shared, Literal.run_shared, step_shared_simulates, bind,
      Except.bind]
    exact ih _

/-! ### Claims -/

/-- C1. In the non-literal specialisation, for containers satisfying the presence
invariant, `x == y` completes and returns true when both are empty, false when exactly
one is empty, and the result of the element comparison when both hold a value. -/
theorem general_eq_by_presence {S : Type} [BEq S] (x y : NonLiteral.optional S)
    (hx : x.WF) (hy : y.WF) :
    NonLiteral.optional.operator_eq x y = .ok
      (match x.content, y.content with
       | none, none => true
       | some vx, some vy => vx == vy
       | _, _ => false) := by
  obtain ⟨bx, cx⟩ := x
  obtain ⟨b_y, cy⟩ := y
  simp only [NonLiteral.optional.WF] at hx hy
  subst hx hy
  cases cx <;> cases cy <;> rfl

/-- Witness for C1 on two containers holding 3 and 4. -/
theorem general_eq_by_presence_witness :
    (⟨true, some 3⟩ : NonLiteral.optional Int).WF ∧
    (⟨true, some 4⟩ : NonLiteral.optional Int).WF ∧
    NonLiteral.optional.operator_eq (⟨true, some 3⟩ : NonLiteral.optional Int)
      ⟨true, some 4⟩ = .ok false :=
  ⟨by decide, by decide,
    general_eq_by_presence (⟨true, some 3⟩ : NonLiteral.optional Int) ⟨true, some 4⟩
      (by decide) (by decide)⟩

/-- C2. Evaluation of `operator==` of the literal specialisation on containers emptied
by `reset`: a container emptied after holding 5 compares equal to a container holding
5, in both argument orders, and two empty containers whose slots last held 1 and 2
compare unequal. -/
theorem literal_eq_ignores_is_inside :
    ((Literal.optional.ctor_value (5 : Int)).reset).operator_bool = false ∧
    (Literal.optional.ctor_value (5 : Int)).operator_bool = true ∧
    Literal.optional.operator_eq ((Literal.optional.ctor_value (5 : Int)).reset)
      (Literal.optional.ctor_value 5) = true ∧
    Literal.optional.operator_eq (Literal.optional.ctor_value (5 : Int))
      ((Literal.optional.ctor_value 5).reset) = true ∧
    ((Literal.optional.ctor_value (1 : Int)).reset).operator_bool = false ∧
    ((Literal.optional.ctor_value (2 : Int)).reset).operator_bool = false ∧
    Literal.optional.operator_eq ((Literal.optional.ctor_value (1 : Int)).reset)
      ((Literal.optional.ctor_value 2).reset) = false := by
  decide

/-- C3. Evaluation of the comparison with a bare value in the literal specialisation: a
container emptied by `reset` after holding 5 compares equal to the value 5 in both
argument orders. -/
theorem literal_eq_value_ignores_is_inside :
    ((Literal.optional.ctor_value (5 : Int)).reset).operator_bool = false ∧
    Literal.optional.operator_eq_value ((Literal.optional.ctor_value (5 : Int)).reset) 5 = true ∧
    Literal.optional.operator_eq_value_rev 5 ((Literal.optional.ctor_value (5 : Int)).reset)
      = true := by
  decide

/-- C4. In both specialisations the container constructed from a value `v`, by copy or
by move, reports a value and dereferences (`operator*`, `value()`) to `v`. -/
theorem value_ctor_holds_value {S : Type} (mv : S → S) (v : S) :
    (∃ x, NonLiteral.optional.ctor_value v = .ok x ∧
      x.operator_bool = true ∧ x.operator_star = .ok v ∧ x.value = .ok v) ∧
    (∃ x r, NonLiteral.optional.ctor_value_move mv v = .ok (x, r) ∧
      x.operator_bool = true ∧ x.operator_star = .ok v ∧ x.value = .ok v) ∧
    ((Literal.optional.ctor_value v).operator_bool = true ∧
      (Literal.optional.ctor_value v).operator_star = v ∧
      (Literal.optional.ctor_value v).value = v) ∧
    ((Literal.optional.ctor_value_move mv v).1.operator_bool = true ∧
      (Literal.optional.ctor_value_move mv v).1.operator_star = v ∧
      (Literal.optional.ctor_value_move mv v).1.value = v) :=
  ⟨⟨⟨true, some v⟩, rfl, rfl, rfl, rfl⟩, ⟨⟨true, some v⟩, mv v, rfl, rfl, rfl, rfl⟩,
    ⟨rfl, rfl, rfl⟩, ⟨rfl, rfl, rfl⟩⟩

/-- C5. Copy assignment between two distinct containers, in both specialisations: the
assignment completes, the presence flag of the target becomes that of the source, a
value held by the source is what the target dereferences to, and the source is
unchanged. -/
theorem copy_assign_distinct {S : Type} (hg : Store (NonLiteral.optional S))
    (hl : Store (Literal.optional S)) (this other : Addr) (hne : this ≠ other)
    (ht : (hg this).WF) (ho : (hg other).WF) :
    (∃ hg', NonLiteral.operator_assign_copy hg this other = .ok hg' ∧
      (hg' this).operator_bool = (hg other).operator_bool ∧
      (∀ v, (hg other).operator_bool = true → (hg other).operator_star = .ok v →
        (hg' this).operator_star = .ok v) ∧
      hg' other = hg other) ∧
    ((Literal.operator_assign_copy hl this other this).operator_bool
        = (hl other).operator_bool ∧
      ((hl other).operator_bool = true →
        (Literal.operator_assign_copy hl this other this).operator_star
          = (hl other).operator_star) ∧
      Literal.operator_assign_copy hl this other other = hl other) := by
  have hne2 : other ≠ this := fun e => hne e.symm
  refine ⟨⟨_, NonLiteral.operator_assign_copy_of_WF hg this other hne ht ho, ?_, ?_, ?_⟩, ?_⟩
  · rw [Store.set_same]
  · intro v _ hv
    rw [Store.set_same]
    exact hv
  · exact Store.set_other _ _ _ _ hne2
  · rw [Literal.operator_assign_copy_eq]
    exact ⟨by rw [Store.set_same], fun _ => by rw [Store.set_same],
      Store.set_other _ _ _ _ hne2⟩

/-- Witness for C5: a holding target at address 0 is assigned from an empty source at
address 1. -/
theorem copy_assign_distinct_witness :
    (0 : Addr) ≠ 1 ∧
    ∃ hg', NonLiteral.operator_assign_copy
        (fun a => if a = 0 then (⟨true, some 7⟩ : NonLiteral.optional Int) else ⟨false, none⟩)
        0 1 = .ok hg' ∧
      (hg' 0).operator_bool = false :=
  ⟨by decide,
    (copy_assign_distinct
      (fun a => if a = 0 then (⟨true, some 7⟩ : NonLiteral.optional Int) else ⟨false, none⟩)
      (fun _ => (⟨false, 0⟩ : Literal.optional Int)) 0 1 (by decide) (by decide)
      (by decide)).1.imp fun _ hh => ⟨hh.1, hh.2.1⟩⟩

/-- C6. Self-assignment is a no-op: copy-assigning or move-assigning the container at
an address to itself returns the store unchanged, in both specialisations and in every
state. -/
theorem self_assign_noop {S : Type} (mv : S → S) (hg : Store (NonLiteral.optional S))
    (hl : Store (Literal.optional S)) (a : Addr) :
    NonLiteral.operator_assign_copy hg a a = .ok hg ∧
    NonLiteral.operator_assign_move mv hg a a = .ok hg ∧
    Literal.operator_assign_copy hl a a = hl ∧
    Literal.operator_assign_move mv hl a a = hl := by
  refine ⟨?_, ?_, ?_, ?_⟩
  · simp [NonLiteral.operator_assign_copy, pure, Except.pure]
  · simp [NonLiteral.operator_assign_move, pure, Except.pure]
  · simp [Literal.operator_assign_copy]
  · simp [Literal.operator_assign_move]

/-- C7. In both specialisations `reset()` completes and leaves the container without a
value, and a second `reset()` leaves the state reached by the first one. -/
theorem reset_clears_and_idempotent {S : Type} (x : NonLiteral.optional S) (hx : x.WF)
    (y : Literal.optional S) :
    (∃ x1, x.reset = .ok x1 ∧ x1.operator_bool = false ∧ x1.reset = .ok x1) ∧
    (y.reset.operator_bool = false ∧ y.reset.reset = y.reset) := by
  refine ⟨⟨_, NonLiteral.optional.reset_of_WF x hx, rfl, rfl⟩, ?_, ?_⟩
  · obtain ⟨b, c⟩ := y
    cases b <;> rfl
  · obtain ⟨b, c⟩ := y
    cases b <;> rfl

/-- Witness for C7 on a container holding the string `hello`. -/
theorem reset_clears_and_idempotent_witness :
    (⟨true, some "hello"⟩ : NonLiteral.optional String).WF ∧
    ∃ x1, (⟨true, some "hello"⟩ : NonLiteral.optional String).reset = .ok x1 ∧
      x1.operator_bool = false ∧ x1.reset = .ok x1 :=
  ⟨by decide, (reset_clears_and_idempotent ⟨true, some "hello"⟩ (by decide)
    (⟨true, "hello"⟩ : Literal.optional String)).1⟩

/-- C8. In both specialisations `value_or(d)` completes on every container, returns
the held value when a value is present and `d` otherwise, also after `reset()` and
after copy assignment from an empty source. -/
theorem value_or_spec {S : Type} (hg : Store (NonLiteral.optional S))
    (hl : Store (Literal.optional S)) (this other : Addr) (d : S)
    (ht : (hg this).WF) (ho : (hg other).WF) :
    (((hg this).operator_bool = true →
        ∃ v, (hg this).operator_star = .ok v ∧ (hg this).value_or d = .ok v) ∧
      ((hg this).operator_bool = false → (hg this).value_or d = .ok d) ∧
      (∃ x1, (hg this).reset = .ok x1 ∧ x1.value_or d = .ok d) ∧
      ((hg other).operator_bool = false →
        ∃ hg', NonLiteral.operator_assign_copy hg this other = .ok hg' ∧
          (hg' this).value_or d = .ok d)) ∧
    (((hl this).operator_bool = true → (hl this).value_or d = (hl this).operator_star) ∧
      ((hl this).operator_bool = false → (hl this).value_or d = d) ∧
      (hl this).reset.value_or d = d ∧
      ((hl other).operator_bool = false →
        (Literal.operator_assign_copy hl this other this).value_or d = d)) := by
  refine ⟨⟨?_, ?_, ⟨_, NonLiteral.optional.reset_of_WF _ ht, rfl⟩, ?_⟩, ?_, ?_, ?_, ?_⟩
  · intro hb
    rcases (NonLiteral.optional.WF_iff (hg this)).1 ht with e | ⟨v, e⟩
    · simp [e, NonLiteral.optional.operator_bool] at hb
    · exact ⟨v, by rw [e]; rfl, by rw [e]; rfl⟩
  · intro hb
    simp only [NonLiteral.optional.operator_bool] at hb
    simp only [NonLiteral.optional.value_or, hb]
    rfl
  · intro hb
    simp only [NonLiteral.optional.operator_bool] at hb
    by_cases hne : this = other
    · subst hne
      refine ⟨hg, by simp [NonLiteral.operator_assign_copy, pure, Except.pure], ?_⟩
      simp only [NonLiteral.optional.value_or, hb]
      rfl
    · refine ⟨_, NonLiteral.operator_assign_copy_of_WF hg this other hne ht ho, ?_⟩
      rw [Store.set_same]
      simp only [NonLiteral.optional.value_or, hb]
      rfl
  · intro hb
    simp only [Literal.optional.operator_bool] at hb
    simp [Literal.optional.value_or, Literal.optional.operator_star, hb]
  · intro hb
    simp only [Literal.optional.operator_bool] at hb
    simp [Literal.optional.value_or, hb]
  · cases hb : (hl this).is_inside <;>
      simp [Literal.optional.value_or, Literal.optional.reset, hb]
  · intro hb
    simp only [Literal.optional.operator_bool] at hb
    rw [Literal.operator_assign_copy_eq, Store.set_same]
    simp [Literal.optional.value_or, hb]

/-- Witness for C8: a container holding 5 at address 0 and an empty one at address 1,
with default 42. -/
theorem value_or_spec_witness :
    (⟨true, some 5⟩ : NonLiteral.optional Int).WF ∧
    (⟨true, some 5⟩ : NonLiteral.optional Int).value_or 42 = .ok 5 ∧
    ∃ x1, (⟨true, some 5⟩ : NonLiteral.optional Int).reset = .ok x1 ∧
      x1.value_or 42 = .ok 42 :=
  ⟨by decide, rfl,
    (value_or_spec
      (fun a => if a = 0 then (⟨true, some 5⟩ : NonLiteral.optional Int) else ⟨false, none⟩)
      (fun _ => (⟨false, 0⟩ : Literal.optional Int)) 0 1 42 (by decide) (by decide)).1.2.2.1⟩

/-- C9. Copy independence in both specialisations: when the container at `a` holds `v`
and the container at `b` is copy-constructed or copy-assigned from it, every later call
on `a` alone (write through `operator*`, `reset`, destructor, assignment) leaves `b`
holding `v`, and every later call on `b` alone leaves `a` holding `v`. -/
theorem copy_independence {S : Type} (mv : S → S) (hg : Store (NonLiteral.optional S))
    (hl : Store (Literal.optional S)) (a b : Addr) (v : S) (hab : a ≠ b)
    (hga : hg a = ⟨true, some v⟩) (hgwf : ∀ c, (hg c).WF) (hla : hl a = ⟨true, v⟩) :
    (∃ xb, NonLiteral.optional.ctor_copy (hg a) = .ok xb ∧
      NonLiteral.Independent mv (hg.set b xb) a b v ∧
      NonLiteral.Independent mv (hg.set b xb) b a v) ∧
    (∃ h1, NonLiteral.operator_assign_copy hg b a = .ok h1 ∧
      NonLiteral.Independent mv h1 a b v ∧ NonLiteral.Independent mv h1 b a v) ∧
    (Literal.Independent mv (hl.set b (Literal.optional.ctor_copy (hl a))) a b v ∧
      Literal.Independent mv (hl.set b (Literal.optional.ctor_copy (hl a))) b a v) ∧
    (Literal.Independent mv (Literal.operator_assign_copy hl b a) a b v ∧
      Literal.Independent mv (Literal.operator_assign_copy hl b a) b a v) := by
  have hba : b ≠ a := fun e => hab e.symm
  have hg1wf : ∀ c, ((hg.set b ⟨true, some v⟩) c).WF :=
    NonLiteral.WF_set hg b _ hgwf (NonLiteral.optional.WF_holding v)
  have hg1a : (hg.set b ⟨true, some v⟩) a = ⟨true, some v⟩ := by
    rw [Store.set_other _ _ _ _ hab, hga]
  have hg1b : (hg.set b ⟨true, some v⟩) b = ⟨true, some v⟩ := Store.set_same _ _ _
  have hl1a : (hl.set b ⟨true, v⟩) a = ⟨true, v⟩ := by
    rw [Store.set_other _ _ _ _ hab, hla]
  have hl1b : (hl.set b ⟨true, v⟩) b = ⟨true, v⟩ := Store.set_same _ _ _
  refine ⟨⟨⟨true, some v⟩, by rw [hga]; rfl, ?_, ?_⟩, ⟨hg.set b ⟨true, some v⟩, ?_, ?_, ?_⟩,
    ⟨?_, ?_⟩, ⟨?_, ?_⟩⟩
  · exact NonLiteral.independent_of_holding_pair mv _ a b v v hab hg1a hg1b hg1wf
  · exact NonLiteral.independent_of_holding_pair mv _ b a v v hba hg1b hg1a hg1wf
  · rw [NonLiteral.operator_assign_copy_of_WF hg b a hba (hgwf b) (hgwf a), hga]
  · exact NonLiteral.independent_of_holding_pair mv _ a b v v hab hg1a hg1b hg1wf
  · exact NonLiteral.independent_of_holding_pair mv _ b a v v hba hg1b hg1a hg1wf
  · rw [hla]
    exact Literal.independent_of_holding_literal mv _ a b v hab hl1b
  · rw [hla]
    exact Literal.independent_of_holding_literal mv _ b a v hba hl1a
  · rw [Literal.operator_assign_copy_eq, hla]
    exact Literal.independent_of_holding_literal mv _ a b v hab hl1b
  · rw [Literal.operator_assign_copy_eq, hla]
    exact Literal.independent_of_holding_literal mv _ b a v hba hl1a

/-- Witness for C9. Non-literal path: the copy of a container holding `hello` still
reads `hello` after the original is destroyed. Literal path: after `a = 5`, `b = a`,
`*a = 7`, the copy still reads 5. -/
theorem copy_independence_witness :
    (∃ xb h2, NonLiteral.optional.ctor_copy (⟨true, some "hello"⟩ : NonLiteral.optional String)
        = .ok xb ∧
      NonLiteral.step id
        (Store.set (fun c => if c = 0 then ⟨true, some "hello"⟩ else ⟨false, none⟩) 1 xb)
        (.dtor 0) = .ok h2 ∧
      (h2 1).operator_star = .ok "hello") ∧
    (Literal.step id
      (Store.set (fun c => if c = 0 then ⟨true, 5⟩ else ⟨false, 0⟩) 1
        (Literal.optional.ctor_copy (⟨true, 5⟩ : Literal.optional Int)))
      (.store_through_star 0 7) 1).operator_star = 5 := by
  refine ⟨?_, ?_⟩
  · obtain ⟨xb, e, hind, _⟩ :=
      (copy_independence id
        (fun c => if c = 0 then (⟨true, some "hello"⟩ : NonLiteral.optional String)
          else ⟨false, none⟩)
        (fun c => if c = 0 then (⟨true, "hello"⟩ : Literal.optional String) else ⟨false, ""⟩)
        0 1 "hello" (by decide) rfl
        (fun c => by by_cases hc : c = 0 <;> simp [hc, NonLiteral.optional.WF]) rfl).1
    obtain ⟨h2, e2, _, hv⟩ := hind (.dtor 0) rfl (by simp [NonLiteral.Op.moved_arg])
    exact ⟨xb, h2, e, e2, hv⟩
  · exact ((copy_independence id
        (fun c => if c = 0 then (⟨true, some 5⟩ : NonLiteral.optional Int) else ⟨false, none⟩)
        (fun c => if c = 0 then (⟨true, 5⟩ : Literal.optional Int) else ⟨false, 0⟩)
        0 1 5 (by decide) rfl
        (fun c => by by_cases hc : c = 0 <;> simp [hc, NonLiteral.optional.WF])
        rfl).2.2.1.1 (.store_through_star 0 7) rfl (by simp [Literal.Op.moved_arg])).2

/-- C10. Presence invariant of the non-literal specialisation: every constructor yields
a container whose `is_inside` flag is true exactly when its storage holds a live object,
and on a store of such containers every sequence of `reset`, copy-assignment and
move-assignment calls (self-assignment and repetitions included) completes and leaves
every container in such a state. -/
theorem presence_invariant {S : Type} (mv : S → S) :
    (NonLiteral.optional.ctor_default : NonLiteral.optional S).WF ∧
    (∀ v : S, ∃ x, NonLiteral.optional.ctor_value v = .ok x ∧ x.WF) ∧
    (∀ v : S, ∃ x r, NonLiteral.optional.ctor_value_move mv v = .ok (x, r) ∧ x.WF) ∧
    (∀ o : NonLiteral.optional S, o.WF →
      ∃ x, NonLiteral.optional.ctor_copy o = .ok x ∧ x.WF) ∧
    (∀ o : NonLiteral.optional S, o.WF →
      ∃ x o1, NonLiteral.optional.ctor_move mv o = .ok (x, o1) ∧ x.WF ∧ o1.WF) ∧
    (∀ (h : Store (NonLiteral.optional S)) (ops : List (NonLiteral.Op S)),
      (∀ c, (h c).WF) → (∀ op ∈ ops, op.is_reset_or_assign = true) →
      ∃ h2, NonLiteral.run mv h ops = .ok h2 ∧ ∀ c, (h2 c).WF) := by
  refine ⟨rfl, fun v => ⟨⟨true, some v⟩, rfl, rfl⟩, fun v => ⟨⟨true, some v⟩, mv v, rfl, rfl⟩,
    ?_, ?_, fun h ops hwf hops => NonLiteral.run_preserves_WF mv ops h hwf hops⟩
  · intro o ho
    rcases (NonLiteral.optional.WF_iff o).1 ho with rfl | ⟨v, rfl⟩
    · exact ⟨⟨false, none⟩, rfl, rfl⟩
    · exact ⟨⟨true, some v⟩, rfl, rfl⟩
  · intro o ho
    rcases (NonLiteral.optional.WF_iff o).1 ho with rfl | ⟨v, rfl⟩
    · exact ⟨⟨false, none⟩, ⟨false, none⟩, rfl, rfl, rfl⟩
    · exact ⟨⟨true, some v⟩, ⟨true, some (mv v)⟩, rfl, rfl, rfl⟩

/-- Witness for C10: a self-assignment, two resets, a move assignment and a copy
assignment on a store with one holding container. -/
theorem presence_invariant_witness :
    ∃ h2, NonLiteral.run id
        (fun c => if c = 0 then (⟨true, some "hello"⟩ : NonLiteral.optional String)
          else ⟨false, none⟩)
        [.assign_copy 0 0, .assign_move 1 0, .reset 0, .reset 0, .assign_copy 0 1] = .ok h2 ∧
      ∀ c, (h2 c).WF :=
  (presence_invariant id).2.2.2.2.2
    (fun c => if c = 0 then (⟨true, some "hello"⟩ : NonLiteral.optional String)
      else ⟨false, none⟩)
    [.assign_copy 0 0, .assign_move 1 0, .reset 0, .reset 0, .assign_copy 0 1]
    (fun c => by by_cases hc : c = 0 <;> simp [hc, NonLiteral.optional.WF])
    (by decide)

/-- C11. Copy construction in both specialisations: the container constructed at a new
address `b` from the container at `a` has the presence flag of the source, is empty when
the source is empty, dereferences to the value of a holding source, and the source is
unchanged. -/
theorem copy_ctor_spec {S : Type} (hg : Store (NonLiteral.optional S))
    (hl : Store (Literal.optional S)) (a b : Addr) (hab : a ≠ b) (ha : (hg a).WF) :
    (∃ x, NonLiteral.optional.ctor_copy (hg a) = .ok x ∧
      ((hg.set b x) b).operator_bool = (hg a).operator_bool ∧
      ((hg a).operator_bool = false → ((hg.set b x) b).operator_bool = false) ∧
      (∀ v, (hg a).operator_bool = true → (hg a).operator_star = .ok v →
        ((hg.set b x) b).operator_star = .ok v) ∧
      (hg.set b x) a = hg a) ∧
    (((hl.set b (Literal.optional.ctor_copy (hl a))) b).operator_bool
        = (hl a).operator_bool ∧
      ((hl a).operator_bool = false →
        ((hl.set b (Literal.optional.ctor_copy (hl a))) b).operator_bool = false) ∧
      ((hl a).operator_bool = true →
        ((hl.set b (Literal.optional.ctor_copy (hl a))) b).operator_star
          = (hl a).operator_star) ∧
      (hl.set b (Literal.optional.ctor_copy (hl a))) a = hl a) := by
  refine ⟨?_, ?_⟩
  · rcases (NonLiteral.optional.WF_iff (hg a)).1 ha with e | ⟨v, e⟩
    · refine ⟨⟨false, none⟩, by rw [e]; rfl, ?_, ?_, ?_, Store.set_other _ _ _ _ hab⟩
      · rw [Store.set_same, e]
      · intro _
        rw [Store.set_same]; rfl
      · intro w hb
        rw [e] at hb
        simp [NonLiteral.optional.operator_bool] at hb
    · refine ⟨⟨true, some v⟩, by rw [e]; rfl, ?_, ?_, ?_, Store.set_other _ _ _ _ hab⟩
      · rw [Store.set_same, e]
      · intro hb
        rw [e] at hb
        simp [NonLiteral.optional.operator_bool] at hb
      · intro w _ hw
        rw [Store.set_same]
        rw [e] at hw
        exact hw
  · refine ⟨by rw [Store.set_same]; rfl, ?_, ?_, Store.set_other _ _ _ _ hab⟩
    · intro hb
      rw [Store.set_same]
      exact hb
    · intro _
      rw [Store.set_same]; rfl

/-- Witness for C11: a container holding `hello` at address 0 is copied to address 1. -/
theorem copy_ctor_spec_witness :
    (0 : Addr) ≠ 1 ∧
    ∃ x, NonLiteral.optional.ctor_copy (⟨true, some "hello"⟩ : NonLiteral.optional String)
        = .ok x ∧
      (Store.set (fun c => if c = 0 then (⟨true, some "hello"⟩ : NonLiteral.optional String)
        else ⟨false, none⟩) 1 x 1).operator_bool = true :=
  ⟨by decide,
    (copy_ctor_spec
      (fun c => if c = 0 then (⟨true, some "hello"⟩ : NonLiteral.optional String)
        else ⟨false, none⟩)
      (fun _ => (⟨false, ""⟩ : Literal.optional String)) 0 1 (by decide)
      (by decide)).1.imp fun _ hh => ⟨hh.1, hh.2.1⟩⟩

/-- C12, counterexample. A container of the literal specialisation emptied by `reset()`
and then assigned its own content slot (`x = *x`, by copy or by move) still reports no
value. -/
theorem value_assign_own_slot_stays_empty :
    (((Literal.optional.ctor_value (5 : Int)).reset).operator_assign_value
      Literal.ElemRef.own_content).operator_bool = false ∧
    (((Literal.optional.ctor_value (5 : Int)).reset).operator_assign_value_move id
      Literal.ElemRef.own_content).1.operator_bool = false := by
  decide

/-- C12, amended. Direct value assignment on the literal specialisation, by copy or by
move: unless the container is empty and the argument is its own content slot, the
container afterwards reports a value and dereferences to the assigned value. -/
theorem value_assign_sets_value {S : Type} (mv : S → S) (x : Literal.optional S)
    (el : Literal.ElemRef S)
    (h : x.operator_bool = true ∨ el ≠ Literal.ElemRef.own_content) :
    ((x.operator_assign_value el).operator_bool = true ∧
      (x.operator_assign_value el).operator_star = Literal.ElemRef.get x el) ∧
    ((x.operator_assign_value_move mv el).1.operator_bool = true ∧
      (x.operator_assign_value_move mv el).1.operator_star = Literal.ElemRef.get x el) := by
  cases el with
  | own_content =>
    rcases h with h | h
    · exact ⟨⟨h, rfl⟩, ⟨h, rfl⟩⟩
    · exact absurd rfl h
  | other v => exact ⟨⟨rfl, rfl⟩, ⟨rfl, rfl⟩⟩

/-- Witness for C12 (amended): an empty container is assigned the value 7. -/
theorem value_assign_sets_value_witness :
    (Literal.ElemRef.other (7 : Int) ≠ Literal.ElemRef.own_content) ∧
    (((Literal.optional.ctor_value (5 : Int)).reset).operator_assign_value
      (Literal.ElemRef.other 7)).operator_bool = true ∧
    (((Literal.optional.ctor_value (5 : Int)).reset).operator_assign_value
      (Literal.ElemRef.other 7)).operator_star = 7 :=
  ⟨by simp, (value_assign_sets_value id ((Literal.optional.ctor_value (5 : Int)).reset)
    (Literal.ElemRef.other 7) (Or.inr (by simp))).1⟩

/-- C13. In the non-literal specialisation, for a container satisfying the presence
invariant, `x == el` completes and returns false when `x` is empty and the result of
the element comparison when `x` holds a value; `el == x` returns the same result. -/
theorem general_eq_value_spec {S : Type} [BEq S] (x : NonLiteral.optional S) (hx : x.WF)
    (el : S) :
    NonLiteral.optional.operator_eq_value x el = .ok
      (match x.content with
       | none => false
       | some v => v == el) ∧
    NonLiteral.optional.operator_eq_value_rev el x
      = NonLiteral.optional.operator_eq_value x el := by
  refine ⟨?_, rfl⟩
  rcases (NonLiteral.optional.WF_iff x).1 hx with rfl | ⟨v, rfl⟩ <;> rfl

/-- Witness for C13 on a container holding 3 compared with 3. -/
theorem general_eq_value_spec_witness :
    (⟨true, some 3⟩ : NonLiteral.optional Int).WF ∧
    NonLiteral.optional.operator_eq_value (⟨true, some 3⟩ : NonLiteral.optional Int) 3
      = .ok true ∧
    NonLiteral.optional.operator_eq_value_rev 3 (⟨true, some 3⟩ : NonLiteral.optional Int)
      = NonLiteral.optional.operator_eq_value ⟨true, some 3⟩ 3 :=
  ⟨by decide, general_eq_value_spec (⟨true, some 3⟩ : NonLiteral.optional Int) (by decide) 3⟩

/-- C14. When the element comparison is reflexive and symmetric, container equality is
reflexive and symmetric in both specialisations: `x == x` returns true and `x == y`
returns what `y == x` returns. -/
theorem container_eq_refl_symm {S : Type} [BEq S] (hrefl : ∀ a : S, (a == a) = true)
    (hsymm : ∀ a b : S, (a == b) = (b == a))
    (x y : NonLiteral.optional S) (hx : x.WF) (hy : y.WF) (xl yl : Literal.optional S) :
    (NonLiteral.optional.operator_eq x x = .ok true ∧
      ∃ r, NonLiteral.optional.operator_eq x y = .ok r ∧
        NonLiteral.optional.operator_eq y x = .ok r) ∧
    (Literal.optional.operator_eq xl xl = true ∧
      Literal.optional.operator_eq xl yl = Literal.optional.operator_eq yl xl) := by
  refine ⟨⟨?_, ?_⟩, hrefl _, hsymm _ _⟩
  · rcases (NonLiteral.optional.WF_iff x).1 hx with rfl | ⟨v, rfl⟩
    · rfl
    · show Except.ok (v == v) = Except.ok true
      rw [hrefl]
  · rcases (NonLiteral.optional.WF_iff x).1 hx with rfl | ⟨v, rfl⟩ <;>
      rcases (NonLiteral.optional.WF_iff y).1 hy with rfl | ⟨w, rfl⟩
    · exact ⟨true, rfl, rfl⟩
    · exact ⟨false, rfl, rfl⟩
    · exact ⟨false, rfl, rfl⟩
    · refine ⟨v == w, rfl, ?_⟩
      show Except.ok (w == v) = Except.ok (v == w)
      rw [hsymm]

/-- Witness for C14 with integer elements. -/
theorem container_eq_refl_symm_witness :
    (∀ a : Int, (a == a) = true) ∧ (∀ a b : Int, (a == b) = (b == a)) ∧
    NonLiteral.optional.operator_eq (⟨true, some 3⟩ : NonLiteral.optional Int)
      ⟨true, some 3⟩ = .ok true ∧
    Literal.optional.operator_eq (⟨false, 3⟩ : Literal.optional Int) ⟨true, 4⟩
      = Literal.optional.operator_eq (⟨true, 4⟩ : Literal.optional Int) ⟨false, 3⟩ :=
  ⟨fun a => by simp, fun a b => by simp [eq_comm],
    (container_eq_refl_symm (fun a : Int => by simp) (fun a b : Int => by simp [eq_comm])
      ⟨true, some 3⟩ ⟨false, none⟩ (by decide) (by decide) ⟨false, 3⟩ ⟨true, 4⟩).1.1,
    (container_eq_refl_symm (fun a : Int => by simp) (fun a b : Int => by simp [eq_comm])
      ⟨true, some 3⟩ ⟨false, none⟩ (by decide) (by decide) ⟨false, 3⟩ ⟨true, 4⟩).2.2⟩

/-- C17. In both specialisations the default-constructed container reports no value,
whatever bytes its storage contains. -/
theorem default_ctor_empty {S : Type} (raw : S) :
    (NonLiteral.optional.ctor_default : NonLiteral.optional S).operator_bool = false ∧
    (Literal.optional.ctor_default raw).operator_bool = false :=
  ⟨rfl, rfl⟩

/-- C19. Move construction and move assignment from a distinct source complete and
leave the presence flag of the source as it was, while the target takes that flag, in
both specialisations. -/
theorem move_keeps_source_flag {S : Type} (mv : S → S) (hg : Store (NonLiteral.optional S))
    (hl : Store (Literal.optional S)) (this other : Addr) (hne : this ≠ other)
    (ht : (hg this).WF) (ho : (hg other).WF) :
    (∃ x o1, NonLiteral.optional.ctor_move mv (hg other) = .ok (x, o1) ∧
      o1.operator_bool = (hg other).operator_bool ∧
      x.operator_bool = (hg other).operator_bool) ∧
    (∃ hg', NonLiteral.operator_assign_move mv hg this other = .ok hg' ∧
      (hg' other).operator_bool = (hg other).operator_bool ∧
      (hg' this).operator_bool = (hg other).operator_bool) ∧
    ((Literal.optional.ctor_move mv (hl other)).2.operator_bool = (hl other).operator_bool ∧
      (Literal.optional.ctor_move mv (hl other)).1.operator_bool
        = (hl other).operator_bool) ∧
    ((Literal.operator_assign_move mv hl this other other).operator_bool
        = (hl other).operator_bool ∧
      (Literal.operator_assign_move mv hl this other this).operator_bool
        = (hl other).operator_bool) := by
  have hne2 : other ≠ this := fun e => hne e.symm
  refine ⟨?_, ⟨_, NonLiteral.operator_assign_move_of_WF mv hg this other hne ht ho, ?_, ?_⟩,
    ⟨rfl, rfl⟩, ?_, ?_⟩
  · rcases (NonLiteral.optional.WF_iff (hg other)).1 ho with e | ⟨v, e⟩
    · exact ⟨⟨false, none⟩, ⟨false, none⟩, by rw [e]; rfl, by rw [e], by rw [e]⟩
    · exact ⟨⟨true, some v⟩, ⟨true, some (mv v)⟩, by rw [e]; rfl, by rw [e]; rfl,
        by rw [e]⟩
  · rw [Store.set_other _ _ _ _ hne2, Store.set_same]
    rfl
  · rw [Store.set_same]
  · rw [Literal.operator_assign_move_eq mv hl this other hne, Store.set_same]
    rfl
  · rw [Literal.operator_assign_move_eq mv hl this other hne, Store.set_other _ _ _ _ hne,
      Store.set_same]

/-- Witness for C19: the container at address 1 is move-assigned from the container
holding `hello` at address 0, which still reports a value afterwards. -/
theorem move_keeps_source_flag_witness :
    (1 : Addr) ≠ 0 ∧
    ∃ hg', NonLiteral.operator_assign_move (fun _ => "")
        (fun c => if c = 0 then (⟨true, some "hello"⟩ : NonLiteral.optional String)
          else ⟨false, none⟩) 1 0 = .ok hg' ∧
      (hg' 0).operator_bool = true ∧ (hg' 1).operator_bool = true :=
  ⟨by decide,
    (move_keeps_source_flag (fun _ => "")
      (fun c => if c = 0 then (⟨true, some "hello"⟩ : NonLiteral.optional String)
        else ⟨false, none⟩)
      (fun _ => (⟨false, ""⟩ : Literal.optional String)) 1 0 (by decide) (by decide)
      (by decide)).2.1⟩

/-- C20. Alias guard of the value assignments of the literal specialisation: when the
argument is the own content slot of the container, the assignment (by copy or by move)
returns the container unchanged, so the presence flag keeps its value and an empty
container stays empty; for every other argument the flag becomes true. -/
theorem value_assign_alias_guard {S : Type} (mv : S → S) (x : Literal.optional S) :
    (x.operator_assign_value Literal.ElemRef.own_content = x ∧
      (x.operator_assign_value_move mv Literal.ElemRef.own_content).1 = x) ∧
    (∀ v : S, (x.operator_assign_value (Literal.ElemRef.other v)).operator_bool = true ∧
      (x.operator_assign_value_move mv (Literal.ElemRef.other v)).1.operator_bool = true) ∧
    (x.operator_bool = false →
      (x.operator_assign_value Literal.ElemRef.own_content).operator_bool = false ∧
      (x.operator_assign_value_move mv Literal.ElemRef.own_content).1.operator_bool
        = false) :=
  ⟨⟨rfl, rfl⟩, fun _ => ⟨rfl, rfl⟩, fun h => ⟨h, h⟩⟩

/-- Witness for C20: a container emptied by `reset()` and assigned its own content
slot. -/
theorem value_assign_alias_guard_witness :
    ((Literal.optional.ctor_value (5 : Int)).reset).operator_bool = false ∧
    (((Literal.optional.ctor_value (5 : Int)).reset).operator_assign_value
      Literal.ElemRef.own_content).operator_bool = false :=
  ⟨by decide, ((value_assign_alias_guard id
    ((Literal.optional.ctor_value (5 : Int)).reset)).2.2 (by decide)).1⟩

/-- C15. Both specialisations realise the same Empty/Holding state machine: starting
from default-constructed containers, after every step of every sequence of shared calls
(default, value and copy construction, copy assignment from another container or from
itself, `reset()`) the non-literal run has completed and, at every address, the two
containers report the same `operator bool` and the same `value_or(d)` for every `d`. -/
theorem variants_same_state_machine {S : Type} (raw : Addr → S) (ops : List (SharedOp S))
    (n : Nat) :
    ∃ hg, NonLiteral.run_shared (fun _ => NonLiteral.optional.ctor_default) (ops.take n)
        = .ok hg ∧
      ∀ a : Addr,
        (hg a).operator_bool
          = (Literal.run_shared (fun c => Literal.optional.ctor_default (raw c))
              (ops.take n) a).operator_bool ∧
        ∀ d : S, (hg a).value_or d
          = .ok ((Literal.run_shared (fun c => Literal.optional.ctor_default (raw c))
              (ops.take n) a).value_or d) := by
  refine ⟨_, run_shared_simulates (ops.take n)
    (fun c => Literal.optional.ctor_default (raw c)), fun a => ⟨rfl, fun d => ?_⟩⟩
  generalize Literal.run_shared (fun c => Literal.optional.ctor_default (raw c))
    (ops.take n) a = x
  obtain ⟨b, c⟩ := x
  cases b <;> rfl

/-- C16. Dereference under its precondition in the non-literal specialisation: after
every sequence of `reset` and assignment calls on containers satisfying the presence
invariant, each container that reports a value is read successfully by `operator*`,
`operator->` and `value()`, all three giving the same value; and the value read after a
value construction or an assignment from a holding source is the one just installed. -/
theorem deref_under_precondition {S : Type} (mv : S → S)
    (h : Store (NonLiteral.optional S)) (ops : List (NonLiteral.Op S))
    (hwf : ∀ c, (h c).WF) (hops : ∀ op ∈ ops, op.is_reset_or_assign = true) :
    (∃ h2, NonLiteral.run mv h ops = .ok h2 ∧
      ∀ a, (h2 a).operator_bool = true →
        ∃ v, (h2 a).operator_star = .ok v ∧ (h2 a).operator_arrow = .ok v ∧
          (h2 a).value = .ok v) ∧
    (∀ v : S, ∃ x, NonLiteral.optional.ctor_value v = .ok x ∧
      x.operator_star = .ok v ∧ x.operator_arrow = .ok v ∧ x.value = .ok v) ∧
    (∀ (this other : Addr) (v : S), this ≠ other → h other = ⟨true, some v⟩ →
      (∃ h1, NonLiteral.operator_assign_copy h this other = .ok h1 ∧
        (h1 this).operator_star = .ok v ∧ (h1 this).operator_arrow = .ok v ∧
        (h1 this).value = .ok v) ∧
      (∃ h1, NonLiteral.operator_assign_move mv h this other = .ok h1 ∧
        (h1 this).operator_star = .ok v ∧ (h1 this).operator_arrow = .ok v ∧
        (h1 this).value = .ok v)) := by
  refine ⟨?_, fun v => ⟨⟨true, some v⟩, rfl, rfl, rfl, rfl⟩, ?_⟩
  · obtain ⟨h2, e, hwf2⟩ := NonLiteral.run_preserves_WF mv ops h hwf hops
    refine ⟨h2, e, fun a hb => ?_⟩
    rcases (NonLiteral.optional.WF_iff (h2 a)).1 (hwf2 a) with e2 | ⟨v, e2⟩
    · rw [e2] at hb
      simp [NonLiteral.optional.operator_bool] at hb
    · exact ⟨v, by rw [e2]; rfl, by rw [e2]; rfl, by rw [e2]; rfl⟩
  · intro this other v hne ho
    refine ⟨⟨_, NonLiteral.operator_assign_copy_of_WF h this other hne (hwf this)
      (hwf other), ?_⟩, ⟨_, NonLiteral.operator_assign_move_of_WF mv h this other hne
      (hwf this) (hwf other), ?_⟩⟩
    · rw [Store.set_same, ho]
      exact ⟨rfl, rfl, rfl⟩
    · rw [Store.set_same, ho]
      exact ⟨rfl, rfl, rfl⟩

/-- Witness for C16: after a copy assignment from the container holding `hello` and a
reset of the source, the target is read by all three accessors. -/
theorem deref_under_precondition_witness :
    ∃ h2, NonLiteral.run id
        (fun c => if c = 0 then (⟨true, some "hello"⟩ : NonLiteral.optional String)
          else ⟨false, none⟩)
        [.assign_copy 1 0, .reset 0] = .ok h2 ∧
      ∀ a, (h2 a).operator_bool = true →
        ∃ v, (h2 a).operator_star = .ok v ∧ (h2 a).operator_arrow = .ok v ∧
          (h2 a).value = .ok v :=
  (deref_under_precondition id
    (fun c => if c = 0 then (⟨true, some "hello"⟩ : NonLiteral.optional String)
      else ⟨false, none⟩)
    [.assign_copy 1 0, .reset 0]
    (fun c => by by_cases hc : c = 0 <;> simp [hc, NonLiteral.optional.WF])
    (by decide)).1

/-- C18. Lifetime discipline of the non-literal specialisation: every constructor
completes, and on containers satisfying the presence invariant every sequence of
`reset` and assignment calls followed by the destructor of a container completes, so
no step runs placement new on storage holding a live object or `~S()` on storage
holding none; after its destructor the container holds no live object and the other
containers still satisfy the invariant. -/
theorem lifetime_discipline {S : Type} (mv : S → S) :
    (∀ v : S, ∃ x, NonLiteral.optional.ctor_value v = .ok x) ∧
    (∀ v : S, ∃ p, NonLiteral.optional.ctor_value_move mv v = .ok p) ∧
    (∀ o : NonLiteral.optional S, o.WF → ∃ x, NonLiteral.optional.ctor_copy o = .ok x) ∧
    (∀ o : NonLiteral.optional S, o.WF → ∃ p, NonLiteral.optional.ctor_move mv o = .ok p) ∧
    (∀ (h : Store (NonLiteral.optional S)) (ops : List (NonLiteral.Op S)) (a : Addr),
      (∀ c, (h c).WF) → (∀ op ∈ ops, op.is_reset_or_assign = true) →
      ∃ h2, NonLiteral.run mv h (ops ++ [NonLiteral.Op.dtor a]) = .ok h2 ∧
        (h2 a).content = none ∧ ∀ c, c ≠ a → (h2 c).WF) := by
  refine ⟨fun v => ⟨_, rfl⟩, fun v => ⟨_, rfl⟩, ?_, ?_, ?_⟩
  · intro o ho
    rcases (NonLiteral.optional.WF_iff o).1 ho with rfl | ⟨v, rfl⟩ <;> exact ⟨_, rfl⟩
  · intro o ho
    rcases (NonLiteral.optional.WF_iff o).1 ho with rfl | ⟨v, rfl⟩ <;> exact ⟨_, rfl⟩
  · intro h ops a hwf hops
    obtain ⟨h1, e1, hwf1⟩ := NonLiteral.run_preserves_WF mv ops h hwf hops
    refine ⟨h1.set a ⟨(h1 a).is_inside, none⟩, ?_, ?_, ?_⟩
    · rw [NonLiteral.run_append mv ops _ h h1 e1]
      simp only [NonLiteral.run, NonLiteral.step, NonLiteral.dtor_at_of_WF h1 a (hwf1 a),
        bind, Except.bind]
      rfl
    · rw [Store.set_same]
    · intro c hc
      rw [Store.set_other _ _ _ _ hc]
      exact hwf1 c

/-- Witness for C18: a container holding `hello` is copied, reset, assigned again and
finally destroyed. -/
theorem lifetime_discipline_witness :
    ∃ h2, NonLiteral.run id
        (fun c => if c = 0 then (⟨true, some "hello"⟩ : NonLiteral.optional String)
          else ⟨false, none⟩)
        ([.assign_copy 1 0, .reset 0, .assign_move 0 1, .assign_copy 0 0]
          ++ [NonLiteral.Op.dtor 0]) = .ok h2 ∧
      (h2 0).content = none ∧ ∀ c, c ≠ 0 → (h2 c).WF :=
  (lifetime_discipline id).2.2.2.2
    (fun c => if c = 0 then (⟨true, some "hello"⟩ : NonLiteral.optional String)
      else ⟨false, none⟩)
    [.assign_copy 1 0, .reset 0, .assign_move 0 1, .assign_copy 0 0] 0
    (fun c => by by_cases hc : c = 0 <;> simp [hc, NonLiteral.optional.WF])
    (by decide)

end sigmadt
